import Mathlib

/-!
Verification of the miniNN inference library core: a shallow embedding of the
tensor container, the tensor kernels, the linear layer, the binary model
loader and the inference-engine profiling state, with theorems about the
behaviour the design document ascribes to them.

Floating-point values are modelled by exact rationals; `std::exp` is
abstracted as an arbitrary strictly positive function parameter.  C++
exceptions are modelled by `Except` with one error constructor per failure
kind of the taxonomy.
-/

namespace MiniNN

/-- Failure kinds of the error taxonomy (each C++ `throw` site is mapped to
the kind the design document names for that site). -/
inductive Err where
  | invalidShape
  | sizeMismatch
  | invalidArgument
  | outOfRange
  | shapeMismatch
  | divisionByZero
  | dimensionMismatch
  | invalidRank
  | emptyInput
  | formatError
  | unsupportedVersion
  | emptyModel
  | tooManyLayers
  | truncatedFile
  | unknownLayerType
  | unsupportedDType
  deriving DecidableEq, Repr

/-- `enum class DataType` from tensor.h. -/
inductive DataType where
  | float32
  | int8
  | int4
  deriving DecidableEq, Repr

/-- The Tensor class: `shape_`, `total_size_`, `dtype_` and the owned flat
buffer `data_` (a null buffer is modelled by the empty list). -/
structure Tensor where
  shape : List Nat
  total_size : Nat
  dtype : DataType
  data : List ℚ
  deriving DecidableEq, Repr

/-- `Tensor::calculateTotalSize`: `std::accumulate(shape, 1, multiplies)`. -/
def calcTotalSize (shape : List Nat) : Nat :=
  shape.foldl (· * ·) 1

/-- `Tensor::validateShape`: rejects an empty shape or a zero dimension. -/
def validateShape (shape : List Nat) : Except Err Unit :=
  if shape = [] then .error .invalidShape
  else if shape.any (· == 0) then .error .invalidShape
  else .ok ()

/-- `Tensor::Tensor(shape, dtype)`: validate, then zero-initialize a buffer
of `total_size` elements. -/
def Tensor.ofShape (shape : List Nat) (dtype : DataType := .float32) :
    Except Err Tensor :=
  match validateShape shape with
  | .error e => .error e
  | .ok _ =>
    .ok ⟨shape, calcTotalSize shape, dtype,
         List.replicate (calcTotalSize shape) 0⟩

/-- `Tensor::Tensor(shape, data, dtype)`: validate the shape, require
`data.size() == total_size`, then copy the data into the buffer. -/
def Tensor.ofShapeData (shape : List Nat) (data : List ℚ)
    (dtype : DataType := .float32) : Except Err Tensor :=
  match validateShape shape with
  | .error e => .error e
  | .ok _ =>
    if data.length ≠ calcTotalSize shape then .error .sizeMismatch
    else .ok ⟨shape, calcTotalSize shape, dtype, data⟩

/-- `Tensor::rank()`. -/
def Tensor.rank (t : Tensor) : Nat := t.shape.length

/-- `Tensor::size()`: returns the stored `total_size_` field. -/
def Tensor.size (t : Tensor) : Nat := t.total_size

/-- The copy constructor / copy assignment: deep duplication of every field
(`shape_`, `total_size_`, `dtype_` and the buffer contents). -/
def Tensor.copy (t : Tensor) : Tensor :=
  ⟨t.shape, t.total_size, t.dtype, t.data⟩

/-- The move constructor: the destination takes the source's fields; the
source's `shape_` vector and buffer are moved out (left empty / null) while
its scalar fields `total_size_` and `dtype_` are merely read, not cleared.
Returns `(destination, source after the move)`. -/
def Tensor.moveConstruct (t : Tensor) : Tensor × Tensor :=
  (⟨t.shape, t.total_size, t.dtype, t.data⟩, ⟨[], t.total_size, t.dtype, []⟩)

/-- Move assignment (non-aliased case): same field transfer as the move
constructor.  Returns `(destination after, source after)`. -/
def Tensor.moveAssign (_dest src : Tensor) : Tensor × Tensor :=
  (⟨src.shape, src.total_size, src.dtype, src.data⟩,
   ⟨[], src.total_size, src.dtype, []⟩)

/-- `Tensor::reshape`: recompute the product of the new shape, require it to
equal `total_size_`, then overwrite `shape_` (the buffer is untouched and the
new shape is not re-validated). -/
def Tensor.reshape (t : Tensor) (new_shape : List Nat) : Except Err Tensor :=
  if calcTotalSize new_shape ≠ t.total_size then .error .invalidArgument
  else .ok { t with shape := new_shape }

/-- The accumulation loop of `Tensor::calculateIndex`, run from the last
index to the first: the pair carries `(index, multiplier)`. -/
def flatFold (pairs : List (Nat × Nat)) : Nat × Nat :=
  pairs.foldr (fun p acc => (acc.1 + p.1 * acc.2, acc.2 * p.2)) (0, 1)

/-- `Tensor::calculateIndex`: rank check, per-dimension bounds check, then
row-major linearization. -/
def Tensor.calculateIndex (t : Tensor) (indices : List Nat) :
    Except Err Nat :=
  if indices.length ≠ t.shape.length then .error .invalidArgument
  else if (List.zip indices t.shape).any (fun p => decide (p.2 ≤ p.1)) then
    .error .outOfRange
  else .ok (flatFold (List.zip indices t.shape)).1

/-- `Tensor::at`: compute the flat index, then read the buffer there. -/
def Tensor.at' (t : Tensor) (indices : List Nat) : Except Err ℚ :=
  match t.calculateIndex indices with
  | .error e => .error e
  | .ok i => .ok (t.data.getD i 0)

/-- The four invariants of the tensor data model: non-empty shape, no zero
dimension, `total_size` equal to the product of the shape, buffer length
equal to `total_size`. -/
def Tensor.wf (t : Tensor) : Prop :=
  t.shape ≠ [] ∧ (∀ d ∈ t.shape, d ≠ 0) ∧
  t.total_size = calcTotalSize t.shape ∧ t.data.length = t.total_size

instance (t : Tensor) : Decidable t.wf := by
  unfold Tensor.wf; infer_instance

/-- `Tensor::operator+=`: shape check, then elementwise addition over the
flat buffers. -/
def Tensor.addAssign (t other : Tensor) : Except Err Tensor :=
  if t.shape ≠ other.shape then .error .shapeMismatch
  else .ok { t with data := List.zipWith (· + ·) t.data other.data }

/-- `Tensor::operator-=`. -/
def Tensor.subAssign (t other : Tensor) : Except Err Tensor :=
  if t.shape ≠ other.shape then .error .shapeMismatch
  else .ok { t with data := List.zipWith (· - ·) t.data other.data }

/-- `Tensor::operator*=`. -/
def Tensor.mulAssign (t other : Tensor) : Except Err Tensor :=
  if t.shape ≠ other.shape then .error .shapeMismatch
  else .ok { t with data := List.zipWith (· * ·) t.data other.data }

/-- The loop body of `Tensor::operator/=`: elements are processed in flat
order; at the first zero divisor the loop throws, leaving the elements
already visited divided and the rest untouched. Returns the final buffer and
the error, if one was raised. -/
def divLoop : List ℚ → List ℚ → List ℚ × Option Err
  | xs, [] => (xs, none)
  | [], _ => ([], none)
  | x :: xs, y :: ys =>
      if y = 0 then (x :: xs, some .divisionByZero)
      else
        let r := divLoop xs ys
        (x / y :: r.1, r.2)

/-- `Tensor::operator/=`: shape check (before any mutation), then the
division loop.  Returns the left operand as it stands when control leaves
the function, plus the error if one was thrown. -/
def Tensor.divAssign (t other : Tensor) : Tensor × Option Err :=
  if t.shape ≠ other.shape then (t, some .shapeMismatch)
  else
    let r := divLoop t.data other.data
    ({ t with data := r.1 }, r.2)

/-- Binary `operator+`: copy the left operand, then apply `+=`. -/
def Tensor.add (lhs rhs : Tensor) : Except Err Tensor :=
  (lhs.copy).addAssign rhs

/-- Binary `operator-`. -/
def Tensor.sub (lhs rhs : Tensor) : Except Err Tensor :=
  (lhs.copy).subAssign rhs

/-- Binary `operator*`. -/
def Tensor.mul (lhs rhs : Tensor) : Except Err Tensor :=
  (lhs.copy).mulAssign rhs

/-- Binary `operator/`: copy the left operand, apply `/=` to the copy; if
the division throws, the temporary is discarded and the error propagates
(the operands, taken by const reference, are untouched). -/
def Tensor.div (lhs rhs : Tensor) : Except Err Tensor :=
  match (lhs.copy).divAssign rhs with
  | (_, some e) => .error e
  | (r, none) => .ok r

/-- One entry of the `TensorOps::matmul` triple loop: the inner `sum` over
`k`, reading the rank-2 operands row-major (`at({i,k})` on shape `[m,n]` is
buffer position `i*n + k`). -/
def matmulEntry (t1 t2 : Tensor) (n p i j : Nat) : ℚ :=
  ((List.range n).map
    (fun k => t1.data.getD (i * n + k) 0 * t2.data.getD (k * p + j) 0)).sum

/-- `TensorOps::matmul`: rank checks, inner-dimension check, then
`result = Tensor({m, p})` filled by the triple loop (`result.at({i,j})` is
buffer position `i*p + j`). -/
def TensorOps.matmul (t1 t2 : Tensor) : Except Err Tensor :=
  if t1.rank ≠ 2 ∨ t2.rank ≠ 2 then .error .invalidRank
  else
    let m := t1.shape.getD 0 0
    let n := t1.shape.getD 1 0
    let p := t2.shape.getD 1 0
    if t1.shape.getD 1 0 ≠ t2.shape.getD 0 0 then .error .dimensionMismatch
    else
      match validateShape [m, p] with
      | .error e => .error e
      | .ok _ =>
        .ok ⟨[m, p], m * p, .float32,
             (List.range (m * p)).map (fun f => matmulEntry t1 t2 n p (f / p) (f % p))⟩

/-- An `n × n` identity matrix as a tensor (ones on the diagonal). -/
def identityTensor (n : Nat) : Tensor :=
  ⟨[n, n], n * n, .float32,
   (List.range (n * n)).map (fun f => if f / n = f % n then (1 : ℚ) else 0)⟩

/-- `TensorOps::relu`: each buffer element below zero is set to zero. -/
def TensorOps.relu (t : Tensor) : Tensor :=
  { t with data := t.data.map (fun x => if x < 0 then 0 else x) }

/-- The running maximum of `TensorOps::softmax`: starts from the first
element and folds `std::max` over the rest. -/
def maxVal : List ℚ → ℚ
  | [] => 0
  | x :: xs => xs.foldl max x

/-- `TensorOps::softmax`, parameterized by the exponential function `e`
(abstracting `std::exp`): empty-input check, subtract the maximum, apply
`e`, sum, then multiply every element by the reciprocal of the sum. -/
def TensorOps.softmax (e : ℚ → ℚ) (t : Tensor) : Except Err Tensor :=
  if t.size = 0 then .error .emptyInput
  else
    let m := maxVal t.data
    let exps := t.data.map (fun x => e (x - m))
    let s := exps.sum
    .ok { t with data := exps.map (fun x => x * (1 / s)) }

/-- The `LinearLayer` state: weight matrix `[in_features, out_features]` and
bias vector `[out_features]`. -/
structure LinearLayer where
  weights : Tensor
  bias : Tensor
  deriving DecidableEq, Repr

/-- The `LinearLayer` constructor validation: weights rank 2, bias rank 1,
weight's second dimension equal to the bias dimension. -/
def LinearLayer.make (weights bias : Tensor) : Except Err LinearLayer :=
  if weights.rank ≠ 2 then .error .invalidRank
  else if bias.rank ≠ 1 then .error .invalidRank
  else if weights.shape.getD 1 0 ≠ bias.shape.getD 0 0 then
    .error .dimensionMismatch
  else .ok ⟨weights, bias⟩

/-- `LinearLayer::forward`.  Rank 1: feature check, promote the input to a
`[1, in_features]` tensor (its buffer is the `memcpy` of the input buffer),
matmul with the weights, then build the `[out_features]` output adding the
bias elementwise.  Rank 2: feature check, matmul, then add the bias to every
row in place (`output.at({batch, feature}) += bias.at({feature})`, i.e. flat
position `f` gains `bias[f % out_features]`).  Other ranks fail. -/
def LinearLayer.forward (l : LinearLayer) (input : Tensor) :
    Except Err Tensor :=
  if input.rank = 1 then
    if input.shape.getD 0 0 ≠ l.weights.shape.getD 0 0 then
      .error .dimensionMismatch
    else
      match TensorOps.matmul
          ⟨[1, input.shape.getD 0 0], calcTotalSize [1, input.shape.getD 0 0],
           .float32, input.data⟩ l.weights with
      | .error e => .error e
      | .ok temp =>
        .ok ⟨[l.weights.shape.getD 1 0], l.weights.shape.getD 1 0, .float32,
             (List.range (l.weights.shape.getD 1 0)).map
               (fun i => temp.data.getD i 0 + l.bias.data.getD i 0)⟩
  else if input.rank = 2 then
    if input.shape.getD 1 0 ≠ l.weights.shape.getD 0 0 then
      .error .dimensionMismatch
    else
      match TensorOps.matmul input l.weights with
      | .error e => .error e
      | .ok out =>
        .ok { out with
              data := (List.range (out.shape.getD 0 0 * out.shape.getD 1 0)).map
                (fun f => out.data.getD f 0 +
                  l.bias.data.getD (f % out.shape.getD 1 0) 0) }
  else .error .invalidRank

/-! ## The model container and the binary loader

The file is modelled as a list of bytes; every `readBinary` of the C++
loader becomes a consumption of a fixed number of bytes from the front of
the list, failing with `truncatedFile` when fewer remain (`!file.good()`
after a short `read`). -/

/-- A layer of the loaded model: Linear with its parameters, or one of the
stateless activations. -/
inductive LayerVariant where
  | linear (l : LinearLayer)
  | reluLayer
  | sigmoidLayer
  | softmaxLayer
  deriving DecidableEq, Repr

/-- The `Model` container: ordered layers plus the declared shapes. -/
structure Model where
  layers : List LayerVariant
  input_shape : List Nat
  output_shape : List Nat
  deriving DecidableEq, Repr

/-- `ModelFormat::MAGIC_NUMBER` (0x4E4E494D, "MINN"). -/
def MAGIC_NUMBER : Nat := 0x4E4E494D

/-- `ModelFormat::VERSION_MAJOR`. -/
def VERSION_MAJOR : Nat := 1

/-- The 16-byte file header. -/
structure Header where
  magic : Nat
  version_major : Nat
  version_minor : Nat
  num_layers : Nat
  reserved : Nat
  deriving DecidableEq, Repr

/-- The type of one parsing step: consume bytes from the front of the
stream, producing a value and the remaining stream, or an error. -/
def ByteParser (α : Type) : Type := List Nat → Except Err (α × List Nat)

/-- Sequencing of parsing steps (an error aborts the load). -/
def pbind {α β : Type} (p : Except Err (α × List Nat))
    (f : α → ByteParser β) : Except Err (β × List Nat) :=
  match p with
  | .error e => .error e
  | .ok (v, rest) => f v rest

/-- One raw `file.read(n)`: take `n` bytes or fail with `truncatedFile`. -/
def readBytes (n : Nat) : ByteParser (List Nat) := fun bs =>
  if n ≤ bs.length then .ok (bs.take n, bs.drop n) else .error .truncatedFile

/-- Little-endian value of a byte list. -/
def leVal (bytes : List Nat) : Nat :=
  bytes.foldr (fun b acc => b + 256 * acc) 0

/-- `readBinary<uint8_t>`. -/
def readU8 : ByteParser Nat := fun bs =>
  pbind (readBytes 1 bs) fun b => fun rest => .ok (leVal b, rest)

/-- `readBinary<uint32_t>`. -/
def readU32 : ByteParser Nat := fun bs =>
  pbind (readBytes 4 bs) fun b => fun rest => .ok (leVal b, rest)

/-- Decode the 16-byte header struct from its bytes. -/
def decodeHeader (hb : List Nat) : Header :=
  ⟨leVal (hb.take 4), leVal ((hb.drop 4).take 2), leVal ((hb.drop 6).take 2),
   leVal ((hb.drop 8).take 4), leVal ((hb.drop 12).take 4)⟩

/-- `readBinary(file, header)`: a single 16-byte read of the header. -/
def readHeader : ByteParser Header := fun bs =>
  pbind (readBytes 16 bs) fun hb => fun rest => .ok (decodeHeader hb, rest)

/-- `ModelLoader::validateHeader`: magic, major version, layer count 1..1000,
checked in that order. -/
def validateHeader (h : Header) : Except Err Unit :=
  if h.magic ≠ MAGIC_NUMBER then .error .formatError
  else if h.version_major ≠ VERSION_MAJOR then .error .unsupportedVersion
  else if h.num_layers = 0 then .error .emptyModel
  else if h.num_layers > 1000 then .error .tooManyLayers
  else .ok ()

/-- The dimension-reading loop: `rank` consecutive `uint32_t` reads. -/
def readDims : Nat → ByteParser (List Nat)
  | 0 => fun bs => .ok ([], bs)
  | n + 1 => fun bs =>
      pbind (readU32 bs) fun d => fun bs1 =>
        pbind (readDims n bs1) fun ds => fun bs2 => .ok (d :: ds, bs2)

/-- Regroup the payload bytes into little-endian 4-byte words. -/
def group4 : List Nat → List Nat
  | b0 :: b1 :: b2 :: b3 :: rest => leVal [b0, b1, b2, b3] :: group4 rest
  | _ => []

/-- `ModelLoader::loadTensor`, with `decode` abstracting the reinterpretation
of a 32-bit word as an IEEE-754 float: read dtype and rank, bound-check the
rank, read the dims, construct the tensor (shape validation applies), require
FLOAT32, then read the payload. -/
def loadTensor (decode : Nat → ℚ) : ByteParser Tensor := fun bs =>
  pbind (readU8 bs) fun dt => fun bs1 =>
    pbind (readU32 bs1) fun rank => fun bs2 =>
      if rank = 0 ∨ rank > 8 then .error .invalidArgument
      else
        pbind (readDims rank bs2) fun shape => fun bs3 =>
          match validateShape shape with
          | .error e => .error e
          | .ok _ =>
            if dt ≠ 0 then .error .unsupportedDType
            else
              pbind (readBytes (calcTotalSize shape * 4) bs3) fun payload =>
                fun bs4 =>
                  .ok (⟨shape, calcTotalSize shape, .float32,
                        (group4 payload).map decode⟩, bs4)

/-- `ModelLoader::loadLayer`: 1-byte tag, then for tag 0 two tensor records
and the `LinearLayer` constructor; tags 1..3 are the stateless activations;
any other tag fails. -/
def loadLayer (decode : Nat → ℚ) : ByteParser LayerVariant := fun bs =>
  pbind (readU8 bs) fun tag => fun bs1 =>
    if tag = 0 then
      pbind (loadTensor decode bs1) fun w => fun bs2 =>
        pbind (loadTensor decode bs2) fun b => fun bs3 =>
          match LinearLayer.make w b with
          | .error e => .error e
          | .ok l => .ok (.linear l, bs3)
    else if tag = 1 then .ok (.reluLayer, bs1)
    else if tag = 2 then .ok (.sigmoidLayer, bs1)
    else if tag = 3 then .ok (.softmaxLayer, bs1)
    else .error .unknownLayerType

/-- The layer-loading loop of `ModelLoader::loadFromFile`. -/
def loadLayers (decode : Nat → ℚ) : Nat → ByteParser (List LayerVariant)
  | 0 => fun bs => .ok ([], bs)
  | n + 1 => fun bs =>
      pbind (loadLayer decode bs) fun l => fun bs1 =>
        pbind (loadLayers decode n bs1) fun ls => fun bs2 => .ok (l :: ls, bs2)

/-- A shape record of the trailer: a `uint32_t` rank then that many
`uint32_t` dimensions. -/
def readShapeRecord : ByteParser (List Nat) := fun bs =>
  pbind (readU32 bs) fun rank => fun bs1 => readDims rank bs1

/-- `ModelLoader::loadFromFile` on the byte stream, also returning the
unconsumed suffix: header read and validation, the layer loop, then the
input- and output-shape records. -/
def loadModelRest (decode : Nat → ℚ) : ByteParser Model := fun bs =>
  pbind (readHeader bs) fun h => fun bs1 =>
    match validateHeader h with
    | .error e => .error e
    | .ok _ =>
      pbind (loadLayers decode h.num_layers bs1) fun layers => fun bs2 =>
        pbind (readShapeRecord bs2) fun in_shape => fun bs3 =>
          pbind (readShapeRecord bs3) fun out_shape => fun _bs4 =>
            .ok (⟨layers, in_shape, out_shape⟩, _bs4)

/-- `ModelLoader::loadFromFile`: the caller receives either the fully
populated model or an error (trailing bytes after the trailer are ignored,
as the C++ loader never checks for end of file). -/
def loadModel (decode : Nat → ℚ) (bs : List Nat) : Except Err Model :=
  match loadModelRest decode bs with
  | .error e => .error e
  | .ok (m, _) => .ok m

/-! ## The inference-engine profiling state -/

/-- The `InferenceStats` struct; durations are modelled as rationals. -/
structure InferenceStats where
  total_time : ℚ
  layer_times : List ℚ
  memory_usage_bytes : Nat
  deriving DecidableEq, Repr

/-- The zero/default value the constructor stores (`InferenceStats{}`). -/
def InferenceStats.default : InferenceStats := ⟨0, [], 0⟩

/-- `InferenceEngine::updateMemoryUsage`: 1000000 bytes per LINEAR layer,
plus 4 bytes per element of each retained intermediate tensor. -/
def memUsage (layers : List LayerVariant) (intermediateSizes : List Nat) :
    Nat :=
  (layers.map (fun l => match l with
      | .linear _ => 1000000
      | _ => 0)).sum
  + (intermediateSizes.map (· * 4)).sum

/-- The effect of one successful `InferenceEngine::predict` call on
`last_stats_`.  When profiling is enabled the stats are reset, the per-layer
times (wall-clock readings, supplied by the oracle `layerTime`) are recorded,
and total time and memory usage are written at the end.  When profiling is
disabled, no statement of `predict` touches `last_stats_`, so the previous
value persists unchanged. -/
def predictStats (layers : List LayerVariant) (intermediateSizes : List Nat)
    (profiling : Bool) (prior : InferenceStats)
    (layerTime : Nat → ℚ) (totalTime : ℚ) : InferenceStats :=
  if profiling then
    ⟨totalTime, (List.range layers.length).map layerTime,
     memUsage layers intermediateSizes⟩
  else prior

/-- The header decoded from the first 16 bytes of a stream. -/
def headerOf (bs : List Nat) : Header :=
  decodeHeader (bs.take 16)

/-- A parsing step is well behaved when every success splits the stream into
a consumed part and the remainder, the step reads only the consumed part,
and every proper prefix of the consumed part makes it fail with
`truncatedFile` (a short read). -/
def GoodP {α : Type} (P : ByteParser α) : Prop :=
  ∀ bs v rest, P bs = .ok (v, rest) →
    ∃ c, bs = c ++ rest ∧ (∀ s, P (c ++ s) = .ok (v, s)) ∧
      (∀ k, k < c.length → P (c.take k) = .error .truncatedFile)

/-! ## Helper lemmas -/

theorem calcTotalSize_eq_prod (l : List Nat) : calcTotalSize l = l.prod := by
  simp [calcTotalSize, List.prod_eq_foldl]

theorem calcTotalSize_nil : calcTotalSize [] = 1 := rfl

theorem calcTotalSize_pair (a b : Nat) : calcTotalSize [a, b] = a * b := by
  simp [calcTotalSize_eq_prod]

theorem calcTotalSize_pos (l : List Nat) (h : ∀ d ∈ l, d ≠ 0) :
    calcTotalSize l ≠ 0 := by
  rw [calcTotalSize_eq_prod]
  intro hz
  exact h 0 (List.prod_eq_zero_iff.mp hz) rfl

theorem getD_map_range (g : Nat → ℚ) (N j : Nat) (h : j < N) :
    ((List.range N).map g).getD j 0 = g j := by
  have hlen : j < ((List.range N).map g).length := by simpa using h
  rw [List.getD_eq_getElem _ _ hlen]
  simp

theorem map_getD_range (l : List ℚ) :
    (List.range l.length).map (fun i => l.getD i 0) = l := by
  apply List.ext_getElem
  · simp
  · intro i h1 h2
    have hi : i < l.length := by simpa using h1
    simp only [List.getElem_map, List.getElem_range]
    rw [List.getD_eq_getElem _ _ hi]

theorem sum_map_range (g : Nat → ℚ) (n : Nat) :
    ((List.range n).map g).sum = ∑ k ∈ Finset.range n, g k := by
  induction n with
  | zero => simp
  | succ n ih => simp [List.range_succ, Finset.sum_range_succ, ih]

/-! ## Claim theorems: relu, move, profiling stats -/

/-- Claim C9: `TensorOps::relu` is idempotent — applying it twice yields the
same tensor as applying it once, where one application clamps every negative
element to zero in place. -/
theorem C9_relu_idempotent (t : Tensor) :
    TensorOps.relu (TensorOps.relu t) = TensorOps.relu t := by
  unfold TensorOps.relu
  simp only [List.map_map]
  have h : ((fun x : ℚ => if x < 0 then 0 else x) ∘
      fun x : ℚ => if x < 0 then 0 else x) =
      fun x : ℚ => if x < 0 then 0 else x := by
    funext x
    by_cases hx : x < 0 <;> simp [hx]
  rw [h]

/-- Claim C6 counterexample: moving from the tensor of shape `[2]` with data
`[1, 2]` leaves a source whose `size()` is still 2, not 0 — `total_size_` is
copied by the move operations, never cleared. -/
theorem C6_cex :
    ¬ ((Tensor.moveConstruct ⟨[2], 2, .float32, [1, 2]⟩).2.size = 0) := by
  decide

/-- Claim C6 (amended): move construction and move assignment transfer the
buffer — the destination receives the source's original shape, size and
element values, and the source is left with an empty shape and a null
buffer — but the source's reported `size()` still equals the original
`total_size` (the field is copied, not cleared), so it is zero only for
tensors that already had size zero. -/
theorem C6_move_semantics (t d : Tensor) :
    (Tensor.moveConstruct t).1.shape = t.shape ∧
    (Tensor.moveConstruct t).1.size = t.size ∧
    (Tensor.moveConstruct t).1.data = t.data ∧
    (Tensor.moveConstruct t).2.shape = [] ∧
    (Tensor.moveConstruct t).2.data = [] ∧
    (Tensor.moveConstruct t).2.size = t.size ∧
    Tensor.moveAssign d t = Tensor.moveConstruct t := by
  simp [Tensor.moveConstruct, Tensor.moveAssign, Tensor.size]

/-- Claim C5 counterexample: on an engine holding one Linear layer, a
profiled `predict` records `memory_usage_bytes = 1000000` and one per-layer
time; a later `predict` with profiling disabled leaves those stale values in
place, so the stats read back are not at their zero/default values. -/
theorem C5_cex :
    ¬ (predictStats [.linear ⟨⟨[1, 1], 1, .float32, [1]⟩, ⟨[1], 1, .float32, [0]⟩⟩]
        [] false
        (predictStats [.linear ⟨⟨[1, 1], 1, .float32, [1]⟩, ⟨[1], 1, .float32, [0]⟩⟩]
          [] true InferenceStats.default (fun _ => 0) 0)
        (fun _ => 0) 0 = InferenceStats.default) := by
  decide

/-- Claim C5 (amended): a `predict` call made while profiling is disabled
leaves `last_stats_` exactly as it was before the call — the fields are at
their zero/default values only if they already were (true when profiling was
never enabled since construction); stats recorded by an earlier profiled
call persist unchanged through later unprofiled calls. -/
theorem C5_stats_unchanged_when_disabled (layers : List LayerVariant)
    (sizes : List Nat) (prior : InferenceStats) (f : Nat → ℚ) (tt : ℚ) :
    predictStats layers sizes false prior f tt = prior ∧
    predictStats layers sizes false InferenceStats.default f tt =
      InferenceStats.default := by
  simp [predictStats]

/-! ## Division: partial mutation at the first zero divisor -/

theorem divLoop_length (xs ys : List ℚ) :
    (divLoop xs ys).1.length = xs.length := by
  induction xs generalizing ys with
  | nil => cases ys <;> simp [divLoop]
  | cons x xs ih =>
    cases ys with
    | nil => simp [divLoop]
    | cons y ys =>
      by_cases hy : y = 0 <;> simp [divLoop, hy, ih]

theorem divLoop_spec (xs ys : List ℚ) (hlen : xs.length = ys.length)
    (i : Nat) (hi : i < ys.length) (hz : ys.getD i 0 = 0)
    (hfirst : ∀ j < i, ys.getD j 0 ≠ 0) :
    (divLoop xs ys).2 = some .divisionByZero ∧
    ∀ j, (divLoop xs ys).1.getD j 0 =
      if j < i then xs.getD j 0 / ys.getD j 0 else xs.getD j 0 := by
  induction xs generalizing ys i with
  | nil =>
    rw [hlen.symm] at hi
    exact absurd hi (by simp)
  | cons x xs ih =>
    cases ys with
    | nil => simp at hi
    | cons y ys =>
      cases i with
      | zero =>
        have hy : y = 0 := by simpa using hz
        refine ⟨by simp [divLoop, hy], ?_⟩
        intro j
        simp [divLoop, hy]
      | succ i =>
        have hy : y ≠ 0 := by
          have := hfirst 0 (Nat.succ_pos i)
          simpa using this
        have hlen' : xs.length = ys.length := by simpa using hlen
        have hi' : i < ys.length := by simpa using hi
        have hz' : ys.getD i 0 = 0 := by simpa using hz
        have hfirst' : ∀ j < i, ys.getD j 0 ≠ 0 := by
          intro j hj
          have := hfirst (j + 1) (by omega)
          simpa using this
        obtain ⟨h2, h1⟩ := ih ys hlen' i hi' hz' hfirst'
        refine ⟨by simp [divLoop, hy, h2], ?_⟩
        intro j
        have hstep : divLoop (x :: xs) (y :: ys) =
            (x / y :: (divLoop xs ys).1, (divLoop xs ys).2) := by
          simp [divLoop, hy]
        cases j with
        | zero => simp [hstep, Nat.succ_pos]
        | succ j =>
          rw [hstep]
          simp only [List.getD_cons_succ, Nat.succ_lt_succ_iff]
          exact h1 j

/-- Claim C10: when `operator/=` is applied to same-shaped tensors whose
divisor has its first exactly-zero element at flat index `i`, the call
raises DivisionByZero there, with every earlier element of the left operand
already divided in place and every element from `i` on untouched (the
mutation is not rolled back); the non-mutating `operator/` propagates the
same error while its operands, being copied/const, are unchanged. -/
theorem C10_div_by_zero_partial (a b : Tensor) (hs : a.shape = b.shape)
    (hlen : a.data.length = b.data.length) (i : Nat)
    (hi : i < b.data.length) (hz : b.data.getD i 0 = 0)
    (hfirst : ∀ j < i, b.data.getD j 0 ≠ 0) :
    (a.divAssign b).2 = some .divisionByZero ∧
    (∀ j, (a.divAssign b).1.data.getD j 0 =
      if j < i then a.data.getD j 0 / b.data.getD j 0 else a.data.getD j 0) ∧
    (a.divAssign b).1.shape = a.shape ∧
    Tensor.div a b = .error .divisionByZero := by
  obtain ⟨h2, h1⟩ := divLoop_spec a.data b.data hlen i hi hz hfirst
  refine ⟨?_, ?_, ?_, ?_⟩
  · simp [Tensor.divAssign, hs, h2]
  · intro j
    simpa [Tensor.divAssign, hs] using h1 j
  · simp [Tensor.divAssign, hs]
  · simp [Tensor.div, Tensor.divAssign, Tensor.copy, hs, h2]

/-- Claim C10 witness: dividing `[6, 4, 8]` by `[2, 0, 4]` (shape `[3]`)
stops at flat index 1 with DivisionByZero; element 0 is already divided
(6/2 = 3) and elements 1, 2 keep their old values; `operator/` yields the
same error. -/
theorem C10_witness :
    (Tensor.divAssign ⟨[3], 3, .float32, [6, 4, 8]⟩
        ⟨[3], 3, .float32, [2, 0, 4]⟩).2 = some .divisionByZero ∧
    (Tensor.divAssign ⟨[3], 3, .float32, [6, 4, 8]⟩
        ⟨[3], 3, .float32, [2, 0, 4]⟩).1.data.getD 0 0 = 3 ∧
    (Tensor.divAssign ⟨[3], 3, .float32, [6, 4, 8]⟩
        ⟨[3], 3, .float32, [2, 0, 4]⟩).1.data.getD 1 0 = 4 ∧
    (Tensor.divAssign ⟨[3], 3, .float32, [6, 4, 8]⟩
        ⟨[3], 3, .float32, [2, 0, 4]⟩).1.data.getD 2 0 = 8 ∧
    Tensor.div ⟨[3], 3, .float32, [6, 4, 8]⟩ ⟨[3], 3, .float32, [2, 0, 4]⟩ =
      .error .divisionByZero := by
  have h := C10_div_by_zero_partial ⟨[3], 3, .float32, [6, 4, 8]⟩
    ⟨[3], 3, .float32, [2, 0, 4]⟩ (by decide) (by decide) 1 (by decide)
    (by decide) (by decide)
  refine ⟨h.1, ?_, ?_, ?_, h.2.2.2⟩ <;> norm_num [Tensor.divAssign, divLoop]

/-! ## The tensor invariants -/

theorem validateShape_ok (shape : List Nat) (h : validateShape shape = .ok ()) :
    shape ≠ [] ∧ ∀ d ∈ shape, d ≠ 0 := by
  unfold validateShape at h
  split at h
  · exact absurd h (by simp)
  · split at h
    · exact absurd h (by simp)
    · rename_i h1 h2
      refine ⟨h1, ?_⟩
      intro d hd hd0
      exact h2 (List.any_eq_true.mpr ⟨d, hd, by simp [hd0]⟩)

theorem ofShape_wf (shape : List Nat) (dt : DataType) (t : Tensor)
    (h : Tensor.ofShape shape dt = .ok t) : t.wf := by
  unfold Tensor.ofShape at h
  cases hv : validateShape shape with
  | error e => rw [hv] at h; exact absurd h (by simp)
  | ok u =>
    rw [hv] at h
    simp only [Except.ok.injEq] at h
    obtain ⟨hne, hnz⟩ := validateShape_ok shape (by cases u; exact hv)
    subst h
    exact ⟨hne, hnz, rfl, by simp⟩

theorem ofShapeData_wf (shape : List Nat) (data : List ℚ) (dt : DataType)
    (t : Tensor) (h : Tensor.ofShapeData shape data dt = .ok t) : t.wf := by
  unfold Tensor.ofShapeData at h
  cases hv : validateShape shape with
  | error e => rw [hv] at h; exact absurd h (by simp)
  | ok u =>
    rw [hv] at h
    obtain ⟨hne, hnz⟩ := validateShape_ok shape (by cases u; exact hv)
    split at h
    · exact absurd h (by simp)
    · split at h
      · exact absurd h (by simp)
      · rename_i hlen
        simp only [Except.ok.injEq] at h
        subst h
        refine ⟨hne, hnz, rfl, ?_⟩
        simpa using hlen

/-- Claim C3 counterexample: the invariant-preservation claim fails at
`reshape`.  The tensor built from shape `[1]` and data `[5]` is well formed,
yet reshaping it to the empty shape succeeds (the empty product is 1, equal
to `total_size`, and `reshape` never re-validates the new shape), producing
a tensor whose shape is empty — violating the first invariant. -/
theorem C3_cex :
    Tensor.ofShapeData [1] [5] .float32 = .ok ⟨[1], 1, .float32, [5]⟩ ∧
    Tensor.reshape ⟨[1], 1, .float32, [5]⟩ [] = .ok ⟨[], 1, .float32, [5]⟩ ∧
    ¬ (Tensor.wf ⟨[], 1, .float32, [5]⟩) := by
  refine ⟨rfl, rfl, by decide⟩

/-- Claim C3 (amended): construction from a shape, construction from shape
plus data, copying, elementwise arithmetic, and every successful reshape to
a NON-EMPTY new shape preserve all four invariants (a successful reshape
can never introduce a zero dimension, since the new product must equal the
non-zero `total_size`); the sole exception the code permits is reshaping a
one-element tensor to the empty shape `[]`, which succeeds — the empty
product is 1 and `reshape` does not re-validate — and breaks the
shape-non-empty invariant. -/
theorem C3_invariants (shape ns : List Nat) (data : List ℚ) (dt : DataType)
    (t o u : Tensor) :
    (Tensor.ofShape shape dt = .ok t → t.wf) ∧
    (Tensor.ofShapeData shape data dt = .ok t → t.wf) ∧
    (t.wf → (t.copy).wf) ∧
    (t.wf → ns ≠ [] → t.reshape ns = .ok u → u.wf) ∧
    (t.wf → o.wf → t.addAssign o = .ok u → u.wf) ∧
    (t.wf → o.wf → t.subAssign o = .ok u → u.wf) ∧
    (t.wf → o.wf → t.mulAssign o = .ok u → u.wf) ∧
    (t.wf → o.wf → (t.divAssign o).2 = none → (t.divAssign o).1.wf) := by
  have hlen_eq : ∀ (a b : Tensor), a.wf → b.wf → a.shape = b.shape →
      a.data.length = b.data.length := by
    intro a b ha hb hs
    rw [ha.2.2.2, hb.2.2.2, ha.2.2.1, hb.2.2.1, hs]
  have zipwf : ∀ (op : ℚ → ℚ → ℚ), t.wf → o.wf → t.shape = o.shape →
      Tensor.wf { t with data := List.zipWith op t.data o.data } := by
    intro op ht ho hs
    refine ⟨ht.1, ht.2.1, ht.2.2.1, ?_⟩
    have := hlen_eq t o ht ho hs
    simp only [List.length_zipWith]
    rw [ht.2.2.2] at this ⊢
    omega
  refine ⟨ofShape_wf shape dt t, ofShapeData_wf shape data dt t, ?_, ?_, ?_, ?_, ?_, ?_⟩
  · intro ht
    exact ht
  · intro ht hns hr
    unfold Tensor.reshape at hr
    split at hr
    · exact absurd hr (by simp)
    · rename_i hsz
      push_neg at hsz
      simp only [Except.ok.injEq] at hr
      subst hr
      refine ⟨hns, ?_, ?_, ?_⟩
      · intro d hd hd0
        have hprod : calcTotalSize ns = 0 := by
          rw [calcTotalSize_eq_prod]
          exact List.prod_eq_zero (by simpa [hd0] using hd)
        have hpos : calcTotalSize t.shape ≠ 0 :=
          calcTotalSize_pos t.shape ht.2.1
        rw [ht.2.2.1] at hsz
        omega
      · simpa using hsz.symm
      · simpa using ht.2.2.2
  · intro ht ho hr
    unfold Tensor.addAssign at hr
    split at hr
    · exact absurd hr (by simp)
    · rename_i hs
      push_neg at hs
      simp only [Except.ok.injEq] at hr
      subst hr
      exact zipwf _ ht ho hs
  · intro ht ho hr
    unfold Tensor.subAssign at hr
    split at hr
    · exact absurd hr (by simp)
    · rename_i hs
      push_neg at hs
      simp only [Except.ok.injEq] at hr
      subst hr
      exact zipwf _ ht ho hs
  · intro ht ho hr
    unfold Tensor.mulAssign at hr
    split at hr
    · exact absurd hr (by simp)
    · rename_i hs
      push_neg at hs
      simp only [Except.ok.injEq] at hr
      subst hr
      exact zipwf _ ht ho hs
  · intro ht ho _
    unfold Tensor.divAssign
    split
    · exact ht
    · refine ⟨ht.1, ht.2.1, ht.2.2.1, ?_⟩
      simp [divLoop_length, ht.2.2.2]

/-- Claim C3 witness: the tensor constructed from shape `[2, 3]` and data
`[1..6]` is well formed, and reshaping it to the non-empty shape `[3, 2]`
preserves all four invariants. -/
theorem C3_witness :
    Tensor.wf ⟨[2, 3], 6, .float32, [1, 2, 3, 4, 5, 6]⟩ ∧
    Tensor.wf ⟨[3, 2], 6, .float32, [1, 2, 3, 4, 5, 6]⟩ := by
  have h := C3_invariants [2, 3] [3, 2] [1, 2, 3, 4, 5, 6] .float32
    ⟨[2, 3], 6, .float32, [1, 2, 3, 4, 5, 6]⟩
    ⟨[2, 3], 6, .float32, [1, 2, 3, 4, 5, 6]⟩
    ⟨[3, 2], 6, .float32, [1, 2, 3, 4, 5, 6]⟩
  have hwf := h.2.1 rfl
  exact ⟨hwf, h.2.2.2.1 hwf (by decide) rfl⟩

/-! ## Row-major index linearization -/

theorem flatFold_cons (p : Nat × Nat) (ps : List (Nat × Nat)) :
    flatFold (p :: ps) =
      ((flatFold ps).1 + p.1 * (flatFold ps).2, (flatFold ps).2 * p.2) := rfl

theorem flatFold_snd (idx sh : List Nat) (h : idx.length = sh.length) :
    (flatFold (List.zip idx sh)).2 = calcTotalSize sh := by
  induction idx generalizing sh with
  | nil =>
    have : sh = [] := by
      cases sh
      · rfl
      · simp at h
    subst this
    rfl
  | cons a idx ih =>
    cases sh with
    | nil => simp at h
    | cons b sh =>
      have h' : idx.length = sh.length := by simpa using h
      rw [List.zip_cons_cons, flatFold_cons]
      simp only [ih sh h']
      rw [calcTotalSize_eq_prod, calcTotalSize_eq_prod, List.prod_cons]
      ring

theorem flatFold_fst (idx sh : List Nat) (h : idx.length = sh.length) :
    (flatFold (List.zip idx sh)).1 =
      ∑ i ∈ Finset.range idx.length,
        idx.getD i 0 * calcTotalSize (sh.drop (i + 1)) := by
  induction idx generalizing sh with
  | nil => simp [flatFold]
  | cons a idx ih =>
    cases sh with
    | nil => simp at h
    | cons b sh =>
      have h' : idx.length = sh.length := by simpa using h
      rw [List.zip_cons_cons, flatFold_cons]
      simp only [List.length_cons]
      rw [Finset.sum_range_succ']
      simp only [List.getD_cons_succ, List.getD_cons_zero, List.drop_succ_cons,
        List.drop_zero]
      rw [ih sh h', flatFold_snd idx sh h']

theorem flatFold_lt (idx sh : List Nat) (h : idx.length = sh.length)
    (hb : ∀ p ∈ List.zip idx sh, p.1 < p.2) :
    (flatFold (List.zip idx sh)).1 < calcTotalSize sh := by
  induction idx generalizing sh with
  | nil =>
    have : sh = [] := by
      cases sh
      · rfl
      · simp at h
    subst this
    simp [flatFold, calcTotalSize_nil]
  | cons a idx ih =>
    cases sh with
    | nil => simp at h
    | cons b sh =>
      have h' : idx.length = sh.length := by simpa using h
      have hab : a < b := by
        have := hb (a, b) (by simp)
        simpa using this
      have hrec : (flatFold (List.zip idx sh)).1 < calcTotalSize sh :=
        ih sh h' (fun p hp => hb p (by simp [hp]))
      rw [List.zip_cons_cons, flatFold_cons]
      simp only [flatFold_snd idx sh h']
      have hbp : calcTotalSize (b :: sh) = b * calcTotalSize sh := by
        rw [calcTotalSize_eq_prod, calcTotalSize_eq_prod, List.prod_cons]
      rw [hbp]
      calc (flatFold (List.zip idx sh)).1 + a * calcTotalSize sh
          < calcTotalSize sh + a * calcTotalSize sh := by omega
        _ = (a + 1) * calcTotalSize sh := by ring
        _ ≤ b * calcTotalSize sh := Nat.mul_le_mul_right _ hab

/-- Claim C7: `Tensor::at` fails with InvalidArgument when the number of
indices differs from the rank, fails with OutOfRange when some index is not
below its dimension, and otherwise returns the buffer element at the
row-major flat position `Σ indices[i] * Π_{j>i} shape[j]` (a position that,
on a well-formed tensor, is always inside the buffer). -/
theorem C7_at_row_major (t : Tensor) (indices : List Nat) :
    (indices.length ≠ t.rank →
      t.calculateIndex indices = .error .invalidArgument ∧
      t.at' indices = .error .invalidArgument) ∧
    (indices.length = t.rank →
      (∃ p ∈ List.zip indices t.shape, p.2 ≤ p.1) →
      t.calculateIndex indices = .error .outOfRange ∧
      t.at' indices = .error .outOfRange) ∧
    (indices.length = t.rank →
      (∀ p ∈ List.zip indices t.shape, p.1 < p.2) →
      t.calculateIndex indices =
        .ok (∑ i ∈ Finset.range indices.length,
          indices.getD i 0 * calcTotalSize (t.shape.drop (i + 1))) ∧
      t.at' indices =
        .ok (t.data.getD (∑ i ∈ Finset.range indices.length,
          indices.getD i 0 * calcTotalSize (t.shape.drop (i + 1))) 0) ∧
      (t.wf →
        (∑ i ∈ Finset.range indices.length,
          indices.getD i 0 * calcTotalSize (t.shape.drop (i + 1))) <
          t.data.length)) := by
  refine ⟨?_, ?_, ?_⟩
  · intro hne
    have hc : indices.length ≠ t.shape.length := hne
    constructor
    · simp [Tensor.calculateIndex, hc]
    · simp [Tensor.at', Tensor.calculateIndex, hc]
  · intro heq hex
    have hc : ¬ indices.length ≠ t.shape.length := by
      simpa [Tensor.rank] using heq
    have hany : (List.zip indices t.shape).any
        (fun p => decide (p.2 ≤ p.1)) = true := by
      obtain ⟨p, hp, hle⟩ := hex
      exact List.any_eq_true.mpr ⟨p, hp, by simpa using hle⟩
    constructor
    · simp [Tensor.calculateIndex, hc, hany]
    · simp [Tensor.at', Tensor.calculateIndex, hc, hany]
  · intro heq hbound
    have hc : ¬ indices.length ≠ t.shape.length := by
      simpa [Tensor.rank] using heq
    have hlen : indices.length = t.shape.length := by simpa using hc
    have hany : ¬ (List.zip indices t.shape).any
        (fun p => decide (p.2 ≤ p.1)) = true := by
      intro hcontra
      obtain ⟨p, hp, hle⟩ := List.any_eq_true.mp hcontra
      have := hbound p hp
      simp at hle
      omega
    have hfst := flatFold_fst indices t.shape hlen
    refine ⟨?_, ?_, ?_⟩
    · simp [Tensor.calculateIndex, hc, hany, hfst]
    · simp [Tensor.at', Tensor.calculateIndex, hc, hany, hfst]
    · intro hwf
      have hlt := flatFold_lt indices t.shape hlen hbound
      rw [hfst] at hlt
      rw [hwf.2.2.2, hwf.2.2.1]
      exact hlt

/-- Claim C7 witness: on the `[2, 3]` tensor with data `[1..6]`, `at [1, 2]`
returns element 6 at flat index 5 = 1·3 + 2; `at [1]` fails with
InvalidArgument; `at [1, 3]` fails with OutOfRange. -/
theorem C7_witness :
    Tensor.calculateIndex ⟨[2, 3], 6, .float32, [1, 2, 3, 4, 5, 6]⟩ [1, 2] =
      .ok 5 ∧
    Tensor.at' ⟨[2, 3], 6, .float32, [1, 2, 3, 4, 5, 6]⟩ [1, 2] = .ok 6 ∧
    Tensor.at' ⟨[2, 3], 6, .float32, [1, 2, 3, 4, 5, 6]⟩ [1] =
      .error .invalidArgument ∧
    Tensor.at' ⟨[2, 3], 6, .float32, [1, 2, 3, 4, 5, 6]⟩ [1, 3] =
      .error .outOfRange := by
  have hok := (C7_at_row_major ⟨[2, 3], 6, .float32, [1, 2, 3, 4, 5, 6]⟩
    [1, 2]).2.2 (by decide) (by decide)
  have hbad := (C7_at_row_major ⟨[2, 3], 6, .float32, [1, 2, 3, 4, 5, 6]⟩
    [1]).1 (by decide)
  have hoor := (C7_at_row_major ⟨[2, 3], 6, .float32, [1, 2, 3, 4, 5, 6]⟩
    [1, 3]).2.1 (by decide) (by decide)
  have hsum : (∑ i ∈ Finset.range ([1, 2] : List Nat).length,
      ([1, 2] : List Nat).getD i 0 *
        calcTotalSize (([2, 3] : List Nat).drop (i + 1))) = 5 := by decide
  refine ⟨?_, ?_, hbad.2, hoor.2⟩
  · rw [hok.1, hsum]
  · rw [hok.2.1, hsum]
    rfl

/-! ## Matrix multiplication -/

theorem div_mod_pair (i j b : Nat) (hj : j < b) :
    (i * b + j) / b = i ∧ (i * b + j) % b = j := by
  constructor
  · rw [mul_comm, Nat.mul_add_div (by omega)]
    simp [Nat.div_eq_of_lt hj]
  · rw [mul_comm, Nat.mul_add_mod]
    exact Nat.mod_eq_of_lt hj

theorem pair_flat_lt (i j m b : Nat) (hi : i < m) (hj : j < b) :
    i * b + j < m * b := by
  calc i * b + j < i * b + b := by omega
    _ = (i + 1) * b := by ring
    _ ≤ m * b := Nat.mul_le_mul_right _ (by omega)

theorem at_pair (t : Tensor) (a b i j : Nat) (hs : t.shape = [a, b])
    (hi : i < a) (hj : j < b) :
    t.calculateIndex [i, j] = .ok (i * b + j) ∧
    t.at' [i, j] = .ok (t.data.getD (i * b + j) 0) := by
  have hcond : ¬ (a ≤ i ∨ b ≤ j) := by omega
  have h3 : (flatFold [(i, a), (j, b)]).1 = i * b + j := by
    simp [flatFold]
    ring
  constructor
  · simp [Tensor.calculateIndex, hs, hcond, h3]
  · simp [Tensor.at', Tensor.calculateIndex, hs, hcond, h3]

theorem matmulEntry_eq_sum (t1 t2 : Tensor) (n p i j : Nat) :
    matmulEntry t1 t2 n p i j =
      ∑ k ∈ Finset.range n,
        t1.data.getD (i * n + k) 0 * t2.data.getD (k * p + j) 0 := by
  unfold matmulEntry
  exact sum_map_range _ n

theorem matmul_ok (t1 t2 : Tensor) (m n p : Nat) (h1 : t1.shape = [m, n])
    (h2 : t2.shape = [n, p]) (hm : m ≠ 0) (hp : p ≠ 0) :
    TensorOps.matmul t1 t2 =
      .ok ⟨[m, p], m * p, .float32,
        (List.range (m * p)).map
          (fun f => matmulEntry t1 t2 n p (f / p) (f % p))⟩ := by
  have hval : validateShape [m, p] = .ok () := by
    simp [validateShape, hm, hp]
  simp [TensorOps.matmul, Tensor.rank, h1, h2, hval]

theorem matmul_ok_wf (t1 t2 : Tensor) (m n p : Nat) (_h1 : t1.shape = [m, n])
    (_h2 : t2.shape = [n, p]) (hm : m ≠ 0) (hp : p ≠ 0) :
    Tensor.wf ⟨[m, p], m * p, .float32,
      (List.range (m * p)).map
        (fun f => matmulEntry t1 t2 n p (f / p) (f % p))⟩ := by
  refine ⟨by simp, ?_, ?_, by simp⟩
  · intro d hd
    simp at hd
    rcases hd with h | h <;> omega
  · simp [calcTotalSize_pair]

theorem identity_entry (n r c : Nat) (hr : r < n) (hc : c < n) :
    (identityTensor n).data.getD (r * n + c) 0 =
      if r = c then (1 : ℚ) else 0 := by
  unfold identityTensor
  have hlt : r * n + c < n * n := pair_flat_lt r c n n hr hc
  rw [getD_map_range _ _ _ hlt]
  obtain ⟨hdiv, hmod⟩ := div_mod_pair r c n hc
  rw [hdiv, hmod]

theorem matmul_right_identity (t1 : Tensor) (m n : Nat) (hw : t1.wf)
    (hs : t1.shape = [m, n]) :
    TensorOps.matmul t1 (identityTensor n) =
      .ok ⟨[m, n], m * n, .float32, t1.data⟩ := by
  have hm : m ≠ 0 := hw.2.1 m (by rw [hs]; simp)
  have hn : n ≠ 0 := hw.2.1 n (by rw [hs]; simp)
  have hlen : t1.data.length = m * n := by
    rw [hw.2.2.2, hw.2.2.1, hs, calcTotalSize_pair]
  rw [matmul_ok t1 (identityTensor n) m n n hs rfl hm hn]
  have hpt : ∀ f ∈ List.range (m * n),
      matmulEntry t1 (identityTensor n) n n (f / n) (f % n) =
        t1.data.getD f 0 := by
    intro f hf
    rw [List.mem_range] at hf
    have hf' : f < n * m := by rw [Nat.mul_comm]; exact hf
    have hi : f / n < m := Nat.div_lt_of_lt_mul hf'
    have hj : f % n < n := Nat.mod_lt _ (by omega)
    rw [matmulEntry_eq_sum]
    have hterm : ∀ k ∈ Finset.range n,
        t1.data.getD (f / n * n + k) 0 *
          (identityTensor n).data.getD (k * n + f % n) 0 =
        if k = f % n then t1.data.getD (f / n * n + k) 0 else 0 := by
      intro k hk
      rw [Finset.mem_range] at hk
      rw [identity_entry n k (f % n) hk hj]
      by_cases hkj : k = f % n <;> simp [hkj]
    rw [Finset.sum_congr rfl hterm, Finset.sum_ite_eq' (Finset.range n)]
    simp only [Finset.mem_range, hj, if_true]
    congr 1
    exact Nat.div_add_mod' f n
  rw [List.map_congr_left hpt]
  have hmap : List.map (fun f => t1.data.getD f 0) (List.range (m * n)) =
      t1.data := by
    rw [← hlen]
    exact map_getD_range t1.data
  rw [hmap]

theorem matmul_left_identity (t1 : Tensor) (m n : Nat) (hw : t1.wf)
    (hs : t1.shape = [m, n]) :
    TensorOps.matmul (identityTensor m) t1 =
      .ok ⟨[m, n], m * n, .float32, t1.data⟩ := by
  have hm : m ≠ 0 := hw.2.1 m (by rw [hs]; simp)
  have hn : n ≠ 0 := hw.2.1 n (by rw [hs]; simp)
  have hlen : t1.data.length = m * n := by
    rw [hw.2.2.2, hw.2.2.1, hs, calcTotalSize_pair]
  rw [matmul_ok (identityTensor m) t1 m m n rfl hs hm hn]
  have hpt : ∀ f ∈ List.range (m * n),
      matmulEntry (identityTensor m) t1 m n (f / n) (f % n) =
        t1.data.getD f 0 := by
    intro f hf
    rw [List.mem_range] at hf
    have hf' : f < n * m := by rw [Nat.mul_comm]; exact hf
    have hi : f / n < m := Nat.div_lt_of_lt_mul hf'
    have hj : f % n < n := Nat.mod_lt _ (by omega)
    rw [matmulEntry_eq_sum]
    have hterm : ∀ k ∈ Finset.range m,
        (identityTensor m).data.getD (f / n * m + k) 0 *
          t1.data.getD (k * n + f % n) 0 =
        if f / n = k then t1.data.getD (k * n + f % n) 0 else 0 := by
      intro k hk
      rw [Finset.mem_range] at hk
      rw [identity_entry m (f / n) k hi hk]
      by_cases hik : f / n = k <;> simp [hik]
    rw [Finset.sum_congr rfl hterm, Finset.sum_ite_eq (Finset.range m)]
    simp only [Finset.mem_range, hi, if_true]
    congr 1
    exact Nat.div_add_mod' f n
  rw [List.map_congr_left hpt]
  have hmap : List.map (fun f => t1.data.getD f 0) (List.range (m * n)) =
      t1.data := by
    rw [← hlen]
    exact map_getD_range t1.data
  rw [hmap]

/-- Claim C1: `TensorOps::matmul` requires rank-2 operands (failing
otherwise), fails with DimensionMismatch when the inner dimensions differ,
and otherwise produces a well-formed result of shape
`[A.shape[0], B.shape[1]]` whose every entry is
`C[i,j] = Σ_k A[i,k]·B[k,j]`; multiplying a well-formed matrix by the
identity on either side returns its values unchanged. -/
theorem C1_matmul_spec (t1 t2 : Tensor) :
    (t1.rank ≠ 2 ∨ t2.rank ≠ 2 →
      TensorOps.matmul t1 t2 = .error .invalidRank) ∧
    (∀ m n n' p, t1.shape = [m, n] → t2.shape = [n', p] → n ≠ n' →
      TensorOps.matmul t1 t2 = .error .dimensionMismatch) ∧
    (∀ m n p, t1.wf → t2.wf → t1.shape = [m, n] → t2.shape = [n, p] →
      ∃ C, TensorOps.matmul t1 t2 = .ok C ∧ C.shape = [m, p] ∧ C.wf ∧
        ∀ i < m, ∀ j < p,
          C.at' [i, j] = .ok (∑ k ∈ Finset.range n,
            t1.data.getD (i * n + k) 0 * t2.data.getD (k * p + j) 0)) ∧
    (∀ m n, t1.wf → t1.shape = [m, n] →
      ∃ C, TensorOps.matmul t1 (identityTensor n) = .ok C ∧
        C.shape = [m, n] ∧ C.data = t1.data) ∧
    (∀ m n, t1.wf → t1.shape = [m, n] →
      ∃ C, TensorOps.matmul (identityTensor m) t1 = .ok C ∧
        C.shape = [m, n] ∧ C.data = t1.data) := by
  refine ⟨?_, ?_, ?_, ?_, ?_⟩
  · intro h
    simp [TensorOps.matmul, h]
  · intro m n n' p h1 h2 hne
    simp [TensorOps.matmul, Tensor.rank, h1, h2, hne]
  · intro m n p hw1 hw2 h1 h2
    have hm : m ≠ 0 := hw1.2.1 m (by rw [h1]; simp)
    have hp : p ≠ 0 := hw2.2.1 p (by rw [h2]; simp)
    refine ⟨_, matmul_ok t1 t2 m n p h1 h2 hm hp, rfl,
      matmul_ok_wf t1 t2 m n p h1 h2 hm hp, ?_⟩
    intro i hi j hj
    have hat := (at_pair ⟨[m, p], m * p, .float32,
      (List.range (m * p)).map
        (fun f => matmulEntry t1 t2 n p (f / p) (f % p))⟩
      m p i j rfl hi hj).2
    rw [hat]
    have hflat : i * p + j < m * p := pair_flat_lt i j m p hi hj
    obtain ⟨hdiv, hmod⟩ := div_mod_pair i j p hj
    simp only [getD_map_range _ _ _ hflat, hdiv, hmod]
    rw [matmulEntry_eq_sum]
  · intro m n hw hs
    exact ⟨_, matmul_right_identity t1 m n hw hs, rfl, rfl⟩
  · intro m n hw hs
    exact ⟨_, matmul_left_identity t1 m n hw hs, rfl, rfl⟩

/-- Claim C1 witness: `[[1,2],[3,4],[5,6]]` (shape `[3,2]`) times
`[[7,8],[9,10]]` (shape `[2,2]`) succeeds with shape `[3,2]` and
entry (0,1) equal to 1·8 + 2·10 = 28; a `[3,2]` by `[3,2]` product fails
with DimensionMismatch; a rank-1 operand fails; identity multiply returns
the left operand's data. -/
theorem C1_witness :
    (∃ C, TensorOps.matmul ⟨[3, 2], 6, .float32, [1, 2, 3, 4, 5, 6]⟩
        ⟨[2, 2], 4, .float32, [7, 8, 9, 10]⟩ = .ok C ∧
      C.shape = [3, 2] ∧ C.wf ∧ C.at' [0, 1] = .ok 28) ∧
    TensorOps.matmul ⟨[3, 2], 6, .float32, [1, 2, 3, 4, 5, 6]⟩
      ⟨[3, 2], 6, .float32, [1, 2, 3, 4, 5, 6]⟩ =
      .error .dimensionMismatch ∧
    TensorOps.matmul ⟨[2], 2, .float32, [1, 2]⟩
      ⟨[2, 2], 4, .float32, [7, 8, 9, 10]⟩ = .error .invalidRank ∧
    (∃ C, TensorOps.matmul ⟨[3, 2], 6, .float32, [1, 2, 3, 4, 5, 6]⟩
        (identityTensor 2) = .ok C ∧ C.data = [1, 2, 3, 4, 5, 6]) := by
  have h := C1_matmul_spec ⟨[3, 2], 6, .float32, [1, 2, 3, 4, 5, 6]⟩
    ⟨[2, 2], 4, .float32, [7, 8, 9, 10]⟩
  refine ⟨?_, ?_, ?_, ?_⟩
  · obtain ⟨C, hC, hshape, hwf, hentry⟩ :=
      h.2.2.1 3 2 2 (by decide) (by decide) rfl rfl
    refine ⟨C, hC, hshape, hwf, ?_⟩
    have := hentry 0 (by omega) 1 (by omega)
    rw [this]
    norm_num [Finset.sum_range_succ]
  · exact (C1_matmul_spec ⟨[3, 2], 6, .float32, [1, 2, 3, 4, 5, 6]⟩
      ⟨[3, 2], 6, .float32, [1, 2, 3, 4, 5, 6]⟩).2.1 3 2 3 2 rfl rfl
      (by omega)
  · exact (C1_matmul_spec ⟨[2], 2, .float32, [1, 2]⟩
      ⟨[2, 2], 4, .float32, [7, 8, 9, 10]⟩).1 (by left; decide)
  · obtain ⟨C, hC, _, hdata⟩ := h.2.2.2.1 3 2 (by decide) rfl
    exact ⟨C, hC, hdata⟩

/-! ## The affine (Linear) layer -/

theorem calcTotalSize_single (a : Nat) : calcTotalSize [a] = a := by
  simp [calcTotalSize_eq_prod]

/-- Claim C2: `LinearLayer::forward` on a rank-1 input of length
`in_features` yields a rank-1 output of length `out_features` with
`y[j] = Σ_i x[i]·W[i,j] + b[j]`; on a rank-2 `[batch, in_features]` input it
yields `[batch, out_features]` with the same formula per row; it fails with
DimensionMismatch when the input's feature dimension differs from the
weight's first dimension and with InvalidRank for any other rank.  (The
concrete scenario of the claim is checked in the witness.) -/
theorem C2_affine_forward (l : LinearLayer) (input : Tensor) (inF outF : Nat)
    (hw : l.weights.wf) (hb : l.bias.wf)
    (hws : l.weights.shape = [inF, outF]) (hbs : l.bias.shape = [outF]) :
    (input.shape = [inF] →
      ∃ y, l.forward input = .ok y ∧ y.shape = [outF] ∧ y.wf ∧
        ∀ j < outF, y.data.getD j 0 =
          (∑ i ∈ Finset.range inF,
            input.data.getD i 0 * l.weights.data.getD (i * outF + j) 0) +
          l.bias.data.getD j 0) ∧
    (∀ batch, input.wf → input.shape = [batch, inF] →
      ∃ y, l.forward input = .ok y ∧ y.shape = [batch, outF] ∧ y.wf ∧
        ∀ r < batch, ∀ j < outF, y.at' [r, j] =
          .ok ((∑ i ∈ Finset.range inF,
            input.data.getD (r * inF + i) 0 *
              l.weights.data.getD (i * outF + j) 0) +
          l.bias.data.getD j 0)) ∧
    (∀ f, input.shape = [f] → f ≠ inF →
      l.forward input = .error .dimensionMismatch) ∧
    (∀ batch f, input.shape = [batch, f] → f ≠ inF →
      l.forward input = .error .dimensionMismatch) ∧
    (input.rank ≠ 1 → input.rank ≠ 2 →
      l.forward input = .error .invalidRank) := by
  have houtF : outF ≠ 0 := hb.2.1 outF (by rw [hbs]; simp)
  have hinF : inF ≠ 0 := hw.2.1 inF (by rw [hws]; simp)
  refine ⟨?_, ?_, ?_, ?_, ?_⟩
  · intro his
    have hrank : input.rank = 1 := by simp [Tensor.rank, his]
    have hmm := matmul_ok ⟨[1, inF], calcTotalSize [1, inF], .float32,
      input.data⟩ l.weights 1 inF outF rfl hws one_ne_zero houtF
    refine ⟨⟨[outF], outF, .float32,
      (List.range outF).map (fun i =>
        ((List.range (1 * outF)).map
          (fun f => matmulEntry ⟨[1, inF], calcTotalSize [1, inF], .float32,
            input.data⟩ l.weights inF outF (f / outF) (f % outF))).getD i 0 +
        l.bias.data.getD i 0)⟩, ?_, rfl, ?_, ?_⟩
    · simp [LinearLayer.forward, hrank, his, hws, hmm]
    · refine ⟨by simp, ?_, by rw [calcTotalSize_single], by simp⟩
      intro d hd
      simp at hd
      omega
    · intro j hj
      have hj1 : j < 1 * outF := by omega
      rw [getD_map_range _ _ _ hj]
      rw [getD_map_range _ _ _ hj1]
      have hdiv : j / outF = 0 := Nat.div_eq_of_lt (by omega)
      have hmod : j % outF = j := Nat.mod_eq_of_lt (by omega)
      rw [hdiv, hmod, matmulEntry_eq_sum]
      simp
  · intro batch hiw his
    have hrank : input.rank = 2 := by simp [Tensor.rank, his]
    have hbatch : batch ≠ 0 := hiw.2.1 batch (by rw [his]; simp)
    have hmm := matmul_ok input l.weights batch inF outF his hws hbatch houtF
    refine ⟨⟨[batch, outF], batch * outF, .float32,
      (List.range (batch * outF)).map (fun f =>
        ((List.range (batch * outF)).map
          (fun g => matmulEntry input l.weights inF outF
            (g / outF) (g % outF))).getD f 0 +
        l.bias.data.getD (f % outF) 0)⟩, ?_, rfl, ?_, ?_⟩
    · simp [LinearLayer.forward, hrank, his, hws, hmm]
    · refine ⟨by simp, ?_, by rw [calcTotalSize_pair], by simp⟩
      intro d hd
      simp at hd
      rcases hd with h | h <;> omega
    · intro r hr j hj
      have hat := (at_pair ⟨[batch, outF], batch * outF, .float32,
        (List.range (batch * outF)).map (fun f =>
          ((List.range (batch * outF)).map
            (fun g => matmulEntry input l.weights inF outF
              (g / outF) (g % outF))).getD f 0 +
          l.bias.data.getD (f % outF) 0)⟩ batch outF r j rfl hr hj).2
      rw [hat]
      have hflat : r * outF + j < batch * outF := pair_flat_lt r j batch outF hr hj
      obtain ⟨hdiv, hmod⟩ := div_mod_pair r j outF hj
      rw [getD_map_range _ _ _ hflat]
      rw [getD_map_range _ _ _ hflat]
      rw [hdiv, hmod, matmulEntry_eq_sum]
  · intro f his hne
    have hrank : input.rank = 1 := by simp [Tensor.rank, his]
    simp [LinearLayer.forward, hrank, his, hws, hne]
  · intro batch f his hne
    have hrank : input.rank = 2 := by simp [Tensor.rank, his]
    simp [LinearLayer.forward, hrank, his, hws, hne]
  · intro h1 h2
    simp [LinearLayer.forward, h1, h2]

/-- Claim C2 witness: the layer with weight `[[1,2,3],[4,5,6]]` (shape
`[2,3]`) and bias `[0.1, 0.2, 0.3]` maps input `[1, 2]` to
`[9.1, 12.2, 15.3]`; input `[1, 2, 3]` (wrong feature count) fails with
DimensionMismatch; a rank-3 input fails with InvalidRank. -/
theorem C2_witness :
    (∃ y, LinearLayer.forward
        ⟨⟨[2, 3], 6, .float32, [1, 2, 3, 4, 5, 6]⟩,
         ⟨[3], 3, .float32, [1/10, 1/5, 3/10]⟩⟩
        ⟨[2], 2, .float32, [1, 2]⟩ = .ok y ∧
      y.shape = [3] ∧ y.data.getD 0 0 = 91/10 ∧ y.data.getD 1 0 = 61/5 ∧
      y.data.getD 2 0 = 153/10) ∧
    LinearLayer.forward
      ⟨⟨[2, 3], 6, .float32, [1, 2, 3, 4, 5, 6]⟩,
       ⟨[3], 3, .float32, [1/10, 1/5, 3/10]⟩⟩
      ⟨[3], 3, .float32, [1, 2, 3]⟩ = .error .dimensionMismatch ∧
    LinearLayer.forward
      ⟨⟨[2, 3], 6, .float32, [1, 2, 3, 4, 5, 6]⟩,
       ⟨[3], 3, .float32, [1/10, 1/5, 3/10]⟩⟩
      ⟨[1, 1, 2], 2, .float32, [1, 2]⟩ = .error .invalidRank := by
  have h := C2_affine_forward
    ⟨⟨[2, 3], 6, .float32, [1, 2, 3, 4, 5, 6]⟩,
     ⟨[3], 3, .float32, [1/10, 1/5, 3/10]⟩⟩
    ⟨[2], 2, .float32, [1, 2]⟩ 2 3 (by decide) (by decide) rfl rfl
  refine ⟨?_, ?_, ?_⟩
  · obtain ⟨y, hy, hshape, _, hentry⟩ := h.1 rfl
    refine ⟨y, hy, hshape, ?_, ?_, ?_⟩
    · rw [hentry 0 (by omega)]
      norm_num [Finset.sum_range_succ]
    · rw [hentry 1 (by omega)]
      norm_num [Finset.sum_range_succ]
    · rw [hentry 2 (by omega)]
      norm_num [Finset.sum_range_succ]
  · exact (C2_affine_forward
      ⟨⟨[2, 3], 6, .float32, [1, 2, 3, 4, 5, 6]⟩,
       ⟨[3], 3, .float32, [1/10, 1/5, 3/10]⟩⟩
      ⟨[3], 3, .float32, [1, 2, 3]⟩ 2 3 (by decide) (by decide) rfl
      rfl).2.2.1 3 rfl (by omega)
  · exact (C2_affine_forward
      ⟨⟨[2, 3], 6, .float32, [1, 2, 3, 4, 5, 6]⟩,
       ⟨[3], 3, .float32, [1/10, 1/5, 3/10]⟩⟩
      ⟨[1, 1, 2], 2, .float32, [1, 2]⟩ 2 3 (by decide) (by decide) rfl
      rfl).2.2.2.2 (by decide) (by decide)

/-! ## Softmax -/

theorem sum_map_mul_right (l : List ℚ) (r : ℚ) :
    (l.map (fun x => x * r)).sum = l.sum * r := by
  induction l with
  | nil => simp
  | cons x xs ih => simp [ih, add_mul]

theorem sum_const_of_mem (l : List ℚ) (c : ℚ) (h : ∀ x ∈ l, x = c) :
    l.sum = l.length * c := by
  induction l with
  | nil => simp
  | cons x xs ih =>
    have hx : x = c := h x (by simp)
    have hrest := ih (fun y hy => h y (by simp [hy]))
    simp [hx, hrest]
    ring

theorem foldl_max_const (xs : List ℚ) (c : ℚ) (h : ∀ x ∈ xs, x = c) :
    xs.foldl max c = c := by
  induction xs with
  | nil => rfl
  | cons x xs ih =>
    have hx : x = c := h x (by simp)
    have := ih (fun y hy => h y (by simp [hy]))
    simp [hx, this]

theorem maxVal_const (l : List ℚ) (c : ℚ) (hne : l ≠ [])
    (h : ∀ x ∈ l, x = c) : maxVal l = c := by
  cases l with
  | nil => exact absurd rfl hne
  | cons x xs =>
    have hx : x = c := h x (by simp)
    rw [maxVal, hx]
    exact foldl_max_const xs c (fun y hy => h y (by simp [hy]))

/-- Claim C8: `TensorOps::softmax` fails with EmptyInput on a size-0 tensor;
on any tensor with non-zero size it subtracts the maximum, applies the
(strictly positive) exponential, sums, and divides by the sum, so the
output has the input's shape, sums exactly to 1 (hence within 1e-6), has
every element in `[0, 1]`, and equals the uniform distribution `1/n` when
all inputs are equal.  In this exact-arithmetic model every value is a
finite rational, so no NaN/Inf can arise for any input magnitude. -/
theorem C8_softmax (e : ℚ → ℚ) (t : Tensor) :
    (t.size = 0 → TensorOps.softmax e t = .error .emptyInput) ∧
    ((∀ x, 0 < e x) → t.total_size ≠ 0 → t.data.length = t.total_size →
      ∃ u, TensorOps.softmax e t = .ok u ∧ u.shape = t.shape ∧
        u.data.length = t.data.length ∧
        u.data.sum = 1 ∧
        (∀ x ∈ u.data, 0 ≤ x ∧ x ≤ 1) ∧
        (∀ c, (∀ x ∈ t.data, x = c) →
          ∀ x ∈ u.data, x = 1 / (t.data.length : ℚ))) := by
  constructor
  · intro h
    simp [TensorOps.softmax, h]
  · intro he h0 hlen
    have hne : t.data ≠ [] := by
      intro hnil
      rw [hnil] at hlen
      simp at hlen
      omega
    refine ⟨{ t with
        data := (t.data.map (fun x => e (x - maxVal t.data))).map
          (fun x =>
            x * (1 / (t.data.map (fun x => e (x - maxVal t.data))).sum)) },
      ?_, rfl, by simp, ?_, ?_, ?_⟩
    · have hsz : ¬ t.size = 0 := by simp [Tensor.size, h0]
      simp [TensorOps.softmax, hsz]
    · rw [sum_map_mul_right]
      have hpos : 0 < (t.data.map (fun x => e (x - maxVal t.data))).sum := by
        refine List.sum_pos _ ?_ (by simpa using hne)
        intro y hy
        obtain ⟨x, _, rfl⟩ := List.mem_map.mp hy
        exact he _
      rw [mul_one_div, div_self hpos.ne']
    · intro x hx
      obtain ⟨y, hy, rfl⟩ := List.mem_map.mp hx
      have hypos : 0 < y := by
        obtain ⟨z, _, rfl⟩ := List.mem_map.mp hy
        exact he _
      have hall : ∀ w ∈ t.data.map (fun x => e (x - maxVal t.data)), 0 ≤ w := by
        intro w hw
        obtain ⟨z, _, rfl⟩ := List.mem_map.mp hw
        exact (he _).le
      have hpos : 0 < (t.data.map (fun x => e (x - maxVal t.data))).sum := by
        refine List.sum_pos _ ?_ (by simpa using hne)
        intro w hw
        obtain ⟨z, _, rfl⟩ := List.mem_map.mp hw
        exact he _
      constructor
      · positivity
      · have hle : y ≤ (t.data.map (fun x => e (x - maxVal t.data))).sum :=
          List.single_le_sum hall y hy
        calc y * (1 / (t.data.map (fun x => e (x - maxVal t.data))).sum)
            ≤ (t.data.map (fun x => e (x - maxVal t.data))).sum *
              (1 / (t.data.map (fun x => e (x - maxVal t.data))).sum) := by
              apply mul_le_mul_of_nonneg_right hle
              positivity
          _ = 1 := by rw [mul_one_div, div_self hpos.ne']
    · intro c hc x hx
      have hmax : maxVal t.data = c := maxVal_const t.data c hne hc
      have hexps : ∀ w ∈ t.data.map (fun x => e (x - maxVal t.data)), w = e 0 := by
        intro w hw
        obtain ⟨z, hz, rfl⟩ := List.mem_map.mp hw
        rw [hmax, hc z hz]
        simp
      have hsum : (t.data.map (fun x => e (x - maxVal t.data))).sum =
          (t.data.length : ℚ) * e 0 := by
        rw [sum_const_of_mem _ (e 0) hexps]
        simp
      obtain ⟨y, hy, rfl⟩ := List.mem_map.mp hx
      rw [hexps y hy, hsum]
      have he0 : e 0 ≠ 0 := (he 0).ne'
      have hL : (t.data.length : ℚ) ≠ 0 := by
        simpa using List.length_pos.mpr hne |>.ne'
      field_simp
      ring

/-- Claim C8 witness: with the positive function `e = (fun _ => 1)` standing
for the exponential, softmax on the all-equal tensor `[5, 5, 5]` (shape
`[3]`) succeeds with outputs summing to 1, each in `[0, 1]`, and uniformly
equal to 1/3; softmax on a size-0 tensor fails with EmptyInput. -/
theorem C8_witness :
    (∃ u, TensorOps.softmax (fun _ => (1 : ℚ)) ⟨[3], 3, .float32, [5, 5, 5]⟩ =
        .ok u ∧ u.shape = [3] ∧ u.data.length = 3 ∧ u.data.sum = 1 ∧
        (∀ x ∈ u.data, 0 ≤ x ∧ x ≤ 1) ∧
        (∀ x ∈ u.data, x = 1 / 3)) ∧
    TensorOps.softmax (fun _ => (1 : ℚ)) ⟨[], 0, .float32, []⟩ =
      .error .emptyInput := by
  have h := C8_softmax (fun _ => (1 : ℚ)) ⟨[3], 3, .float32, [5, 5, 5]⟩
  obtain ⟨u, hu, hshape, hlen, hsum, hbound, huni⟩ :=
    h.2 (fun _ => by norm_num) (by decide) (by decide)
  refine ⟨⟨u, hu, hshape, by simpa using hlen, hsum, hbound, ?_⟩, ?_⟩
  · intro x hx
    have h5 : ∀ y ∈ (⟨[3], 3, .float32, [5, 5, 5]⟩ : Tensor).data, y = 5 := by
      intro y hy
      simp at hy
      exact hy
    have := huni 5 h5 x hx
    simpa using this
  · exact (C8_softmax (fun _ => (1 : ℚ)) ⟨[], 0, .float32, []⟩).1 (by decide)

/-! ## The loader: parser combinator properties -/

theorem goodP_ok_cont {α : Type} (w : α) :
    GoodP (fun bs => (.ok (w, bs) : Except Err (α × List Nat))) := by
  intro bs v rest h
  simp only [Except.ok.injEq, Prod.mk.injEq] at h
  refine ⟨[], by simp [h.2], ?_, by simp⟩
  intro s
  simp [h.1]

theorem goodP_err {α : Type} (e : Err) :
    GoodP (fun _ : List Nat => (.error e : Except Err (α × List Nat))) := by
  intro bs v rest h
  exact absurd h (by simp)

theorem goodP_readBytes (n : Nat) : GoodP (readBytes n) := by
  intro bs v rest h
  unfold readBytes at h
  split at h
  · rename_i hle
    simp only [Except.ok.injEq, Prod.mk.injEq] at h
    refine ⟨bs.take n, ?_, ?_, ?_⟩
    · rw [← h.2]
      exact (List.take_append_drop n bs).symm
    · intro s
      have hlen : (bs.take n).length = n := by
        simp [Nat.min_eq_left hle]
      unfold readBytes
      rw [if_pos (by simp [hlen])]
      rw [List.take_left' hlen, List.drop_left' hlen, ← h.1]
    · intro k hk
      have hlen : (bs.take n).length = n := by
        simp [Nat.min_eq_left hle]
      rw [hlen] at hk
      unfold readBytes
      rw [if_neg]
      simp [Nat.min_le_left]
      omega
  · exact absurd h (by simp)

theorem goodP_pbind {α β : Type} {P : ByteParser α} {Q : α → ByteParser β}
    (hP : GoodP P) (hQ : ∀ v, GoodP (Q v)) :
    GoodP (fun bs => pbind (P bs) Q) := by
  intro bs v rest h
  change pbind (P bs) Q = Except.ok (v, rest) at h
  cases hP1 : P bs with
  | error e => rw [hP1] at h; simp [pbind] at h
  | ok pr =>
    obtain ⟨v1, bs1⟩ := pr
    rw [hP1] at h
    simp only [pbind] at h
    obtain ⟨c1, hc1, hext1, htr1⟩ := hP bs v1 bs1 hP1
    obtain ⟨c2, hc2, hext2, htr2⟩ := hQ v1 bs1 v rest h
    refine ⟨c1 ++ c2, ?_, ?_, ?_⟩
    · rw [hc1, hc2, List.append_assoc]
    · intro s
      have h1 : P (c1 ++ (c2 ++ s)) = .ok (v1, c2 ++ s) := hext1 (c2 ++ s)
      simp only [pbind, List.append_assoc, h1]
      exact hext2 s
    · intro k hk
      simp only [List.length_append] at hk
      by_cases hkc : k < c1.length
      · have htake : (c1 ++ c2).take k = c1.take k :=
          List.take_append_of_le_length (by omega)
        rw [htake]
        simp only [pbind, htr1 k hkc]
      · have htake : (c1 ++ c2).take k = c1 ++ c2.take (k - c1.length) := by
          rw [List.take_append_eq_append_take]
          congr 1
          exact List.take_of_length_le (by omega)
        rw [htake]
        simp only [pbind, hext1 (c2.take (k - c1.length))]
        exact htr2 (k - c1.length) (by omega)

theorem goodP_ite {α : Type} (c : Prop) [Decidable c] (P Q : ByteParser α)
    (hP : GoodP P) (hQ : GoodP Q) :
    GoodP (fun bs => if c then P bs else Q bs) := by
  by_cases h : c <;> simp only [h, if_true, if_false] <;> assumption

theorem goodP_matchE {α β : Type} (x : Except Err β) (Q : β → ByteParser α)
    (hQ : ∀ v, GoodP (Q v)) :
    GoodP (fun bs =>
      match x with
      | .error e => .error e
      | .ok v => Q v bs) := by
  cases x with
  | error e => exact goodP_err e
  | ok v => exact hQ v

theorem goodP_readU8 : GoodP readU8 :=
  goodP_pbind (goodP_readBytes 1) (fun b => goodP_ok_cont (leVal b))

theorem goodP_readU32 : GoodP readU32 :=
  goodP_pbind (goodP_readBytes 4) (fun b => goodP_ok_cont (leVal b))

theorem goodP_readHeader : GoodP readHeader :=
  goodP_pbind (goodP_readBytes 16) (fun hb => goodP_ok_cont (decodeHeader hb))

theorem goodP_readDims (n : Nat) : GoodP (readDims n) := by
  induction n with
  | zero => exact goodP_ok_cont []
  | succ n ih =>
    exact goodP_pbind goodP_readU32 (fun d =>
      goodP_pbind ih (fun ds => goodP_ok_cont (d :: ds)))

theorem goodP_loadTensor (decode : Nat → ℚ) : GoodP (loadTensor decode) := by
  refine goodP_pbind goodP_readU8 (fun dt => ?_)
  refine goodP_pbind goodP_readU32 (fun rank => ?_)
  refine goodP_ite _ _ _ (goodP_err _) ?_
  refine goodP_pbind (goodP_readDims rank) (fun shape => ?_)
  cases validateShape shape with
  | error e => exact goodP_err e
  | ok u =>
    refine goodP_ite _ _ _ (goodP_err _) ?_
    exact goodP_pbind (goodP_readBytes (calcTotalSize shape * 4))
      (fun payload => goodP_ok_cont _)

theorem goodP_loadLayer (decode : Nat → ℚ) : GoodP (loadLayer decode) := by
  refine goodP_pbind goodP_readU8 (fun tag => ?_)
  refine goodP_ite _ _ _ ?_ ?_
  · refine goodP_pbind (goodP_loadTensor decode) (fun w => ?_)
    refine goodP_pbind (goodP_loadTensor decode) (fun b => ?_)
    cases LinearLayer.make w b with
    | error e => exact goodP_err e
    | ok l => exact goodP_ok_cont _
  · refine goodP_ite _ _ _ (goodP_ok_cont _) ?_
    refine goodP_ite _ _ _ (goodP_ok_cont _) ?_
    exact goodP_ite _ _ _ (goodP_ok_cont _) (goodP_err _)

theorem goodP_loadLayers (decode : Nat → ℚ) (n : Nat) :
    GoodP (loadLayers decode n) := by
  induction n with
  | zero => exact goodP_ok_cont []
  | succ n ih =>
    exact goodP_pbind (goodP_loadLayer decode) (fun l =>
      goodP_pbind ih (fun ls => goodP_ok_cont (l :: ls)))

theorem goodP_readShapeRecord : GoodP readShapeRecord :=
  goodP_pbind goodP_readU32 (fun rank => goodP_readDims rank)

theorem goodP_loadModelRest (decode : Nat → ℚ) :
    GoodP (loadModelRest decode) := by
  refine goodP_pbind goodP_readHeader (fun h => ?_)
  cases validateHeader h with
  | error e => exact goodP_err e
  | ok u =>
    refine goodP_pbind (goodP_loadLayers decode h.num_layers) (fun layers => ?_)
    refine goodP_pbind goodP_readShapeRecord (fun in_shape => ?_)
    exact goodP_pbind goodP_readShapeRecord (fun out_shape => goodP_ok_cont _)

theorem validateHeader_ok_inv (h : Header) (hv : validateHeader h = .ok ()) :
    h.magic = MAGIC_NUMBER ∧ h.version_major = VERSION_MAJOR ∧
    h.num_layers ≠ 0 ∧ h.num_layers ≤ 1000 := by
  unfold validateHeader at hv
  split at hv
  · exact absurd hv (by simp)
  · split at hv
    · exact absurd hv (by simp)
    · split at hv
      · exact absurd hv (by simp)
      · split at hv
        · exact absurd hv (by simp)
        · rename_i h1 h2 h3 h4
          push_neg at h1 h2
          exact ⟨h1, h2, h3, by omega⟩

theorem loadLayers_length (decode : Nat → ℚ) (n : Nat) :
    ∀ bs ls rest, loadLayers decode n bs = .ok (ls, rest) →
      ls.length = n := by
  induction n with
  | zero =>
    intro bs ls rest h
    simp only [loadLayers, Except.ok.injEq, Prod.mk.injEq] at h
    rw [← h.1]
    rfl
  | succ n ih =>
    intro bs ls rest h
    simp only [loadLayers] at h
    cases h1 : loadLayer decode bs with
    | error e => rw [h1] at h; simp [pbind] at h
    | ok pr =>
      obtain ⟨l, bs1⟩ := pr
      rw [h1] at h
      simp only [pbind] at h
      cases h2 : loadLayers decode n bs1 with
      | error e => rw [h2] at h; simp [pbind] at h
      | ok pr2 =>
        obtain ⟨ls2, bs2⟩ := pr2
        rw [h2] at h
        simp only [pbind, Except.ok.injEq, Prod.mk.injEq] at h
        rw [← h.1]
        simp [ih bs1 ls2 bs2 h2]

theorem readHeader_of_le (bs : List Nat) (h : 16 ≤ bs.length) :
    readHeader bs = .ok (headerOf bs, bs.drop 16) := by
  simp [readHeader, readBytes, pbind, h, headerOf]

theorem readHeader_ok_inv (bs : List Nat) (hdr : Header) (rest : List Nat)
    (h : readHeader bs = .ok (hdr, rest)) :
    16 ≤ bs.length ∧ hdr = headerOf bs ∧ rest = bs.drop 16 := by
  by_cases hle : 16 ≤ bs.length
  · rw [readHeader_of_le bs hle] at h
    simp only [Except.ok.injEq, Prod.mk.injEq] at h
    exact ⟨hle, h.1.symm, h.2.symm⟩
  · have herr : readHeader bs = .error .truncatedFile := by
      simp [readHeader, readBytes, pbind, hle]
    rw [herr] at h
    exact absurd h (by simp)

theorem loadModelRest_ok_inv (decode : Nat → ℚ) (bs : List Nat) (m : Model)
    (rest : List Nat) (h : loadModelRest decode bs = .ok (m, rest)) :
    16 ≤ bs.length ∧ validateHeader (headerOf bs) = .ok () ∧
    m.layers.length = (headerOf bs).num_layers := by
  unfold loadModelRest at h
  cases hh : readHeader bs with
  | error e => rw [hh] at h; simp [pbind] at h
  | ok pr =>
    obtain ⟨hdr, bs1⟩ := pr
    rw [hh] at h
    simp only [pbind] at h
    obtain ⟨h16, hhdr, hrest1⟩ := readHeader_ok_inv bs hdr bs1 hh
    subst hhdr
    cases hv : validateHeader (headerOf bs) with
    | error e => rw [hv] at h; simp at h
    | ok u =>
      cases u
      rw [hv] at h
      simp only at h
      cases hl : loadLayers decode (headerOf bs).num_layers bs1 with
      | error e => rw [hl] at h; simp [pbind] at h
      | ok pr2 =>
        obtain ⟨layers, bs2⟩ := pr2
        rw [hl] at h
        simp only [pbind] at h
        cases hs1 : readShapeRecord bs2 with
        | error e => rw [hs1] at h; simp [pbind] at h
        | ok pr3 =>
          obtain ⟨ins, bs3⟩ := pr3
          rw [hs1] at h
          simp only [pbind] at h
          cases hs2 : readShapeRecord bs3 with
          | error e => rw [hs2] at h; simp [pbind] at h
          | ok pr4 =>
            obtain ⟨outs, bs4⟩ := pr4
            rw [hs2] at h
            simp only [pbind, Except.ok.injEq, Prod.mk.injEq] at h
            refine ⟨h16, ?_, ?_⟩
            · rfl
            · rw [← h.1]
              exact loadLayers_length decode _ bs1 layers bs2 hl

/-- Claim C4: `ModelLoader::loadFromFile` fails with FormatError on a wrong
magic, UnsupportedVersion on a wrong major version (good magic), EmptyModel
on zero layers, TooManyLayers above 1000 (the header checks are applied in
that order); a stream shorter than the 16-byte header, or any stream cut
short inside the bytes a successful load would consume, fails with
TruncatedFile; and a load never yields a partial model: the result is
either a single error or a model whose layer count equals the header's
declared count, which lies in 1..1000. -/
theorem C4_loader (decode : Nat → ℚ) (bs : List Nat) :
    (bs.length < 16 → loadModel decode bs = .error .truncatedFile) ∧
    (16 ≤ bs.length →
      ((headerOf bs).magic ≠ MAGIC_NUMBER →
        loadModel decode bs = .error .formatError) ∧
      ((headerOf bs).magic = MAGIC_NUMBER →
        (headerOf bs).version_major ≠ VERSION_MAJOR →
        loadModel decode bs = .error .unsupportedVersion) ∧
      ((headerOf bs).magic = MAGIC_NUMBER →
        (headerOf bs).version_major = VERSION_MAJOR →
        (headerOf bs).num_layers = 0 →
        loadModel decode bs = .error .emptyModel) ∧
      ((headerOf bs).magic = MAGIC_NUMBER →
        (headerOf bs).version_major = VERSION_MAJOR →
        (headerOf bs).num_layers > 1000 →
        loadModel decode bs = .error .tooManyLayers)) ∧
    (∀ m rest, loadModelRest decode bs = .ok (m, rest) →
      m.layers.length = (headerOf bs).num_layers ∧
      1 ≤ m.layers.length ∧ m.layers.length ≤ 1000 ∧
      ∀ k, k < bs.length - rest.length →
        loadModel decode (bs.take k) = .error .truncatedFile) := by
  refine ⟨?_, ?_, ?_⟩
  · intro h
    have hnot : ¬ 16 ≤ bs.length := by omega
    simp [loadModel, loadModelRest, readHeader, readBytes, pbind, hnot]
  · intro h16
    have hrh := readHeader_of_le bs h16
    refine ⟨?_, ?_, ?_, ?_⟩
    · intro hmagic
      simp [loadModel, loadModelRest, pbind, hrh, validateHeader, hmagic]
    · intro hmagic hver
      simp [loadModel, loadModelRest, pbind, hrh, validateHeader, hmagic, hver]
    · intro hmagic hver hzero
      simp [loadModel, loadModelRest, pbind, hrh, validateHeader, hmagic,
        hver, hzero]
    · intro hmagic hver hmany
      have hnz : (headerOf bs).num_layers ≠ 0 := by omega
      simp [loadModel, loadModelRest, pbind, hrh, validateHeader, hmagic,
        hver, hnz, hmany]
  · intro m rest h
    obtain ⟨h16, hv, hcount⟩ := loadModelRest_ok_inv decode bs m rest h
    obtain ⟨_, _, hnz, hle⟩ := validateHeader_ok_inv _ hv
    refine ⟨hcount, by omega, by omega, ?_⟩
    intro k hk
    obtain ⟨c, hc, _, htr⟩ := goodP_loadModelRest decode bs m rest h
    have hclen : c.length = bs.length - rest.length := by
      have := congrArg List.length hc
      simp at this
      omega
    have htake : bs.take k = c.take k := by
      rw [hc]
      exact List.take_append_of_le_length (by omega)
    rw [htake]
    have := htr k (by omega)
    simp [loadModel, this]

/-- Claim C4 witness: a 10-byte stream fails with TruncatedFile; a 16-byte
all-zero stream fails with FormatError (magic 0 ≠ 0x4E4E494D); the 33-byte
stream encoding a valid one-ReLU-layer model loads fully (layer count 1, as
the header declares), and cutting that stream to its first 20 bytes fails
with TruncatedFile. -/
theorem C4_witness :
    loadModel (fun n => (n : ℚ)) (List.replicate 10 0) =
      .error .truncatedFile ∧
    loadModel (fun n => (n : ℚ)) (List.replicate 16 0) =
      .error .formatError ∧
    (⟨[.reluLayer], [2], [2]⟩ : Model).layers.length = 1 ∧
    loadModel (fun n => (n : ℚ))
      (List.take 20 [0x4D, 0x49, 0x4E, 0x4E, 1, 0, 0, 0, 1, 0, 0, 0,
        0, 0, 0, 0, 1, 1, 0, 0, 0, 2, 0, 0, 0, 1, 0, 0, 0, 2, 0, 0, 0]) =
      .error .truncatedFile := by
  have h1 := (C4_loader (fun n => (n : ℚ)) (List.replicate 10 0)).1
    (by decide)
  have h2 := ((C4_loader (fun n => (n : ℚ)) (List.replicate 16 0)).2.1
    (by decide)).1 (by decide)
  have h3 := (C4_loader (fun n => (n : ℚ))
    [0x4D, 0x49, 0x4E, 0x4E, 1, 0, 0, 0, 1, 0, 0, 0,
     0, 0, 0, 0, 1, 1, 0, 0, 0, 2, 0, 0, 0, 1, 0, 0, 0, 2, 0, 0, 0]).2.2
    ⟨[.reluLayer], [2], [2]⟩ [] (by rfl)
  exact ⟨h1, h2, rfl, h3.2.2.2 20 (by decide)⟩

end MiniNN
